import Mathlib

/-!
Verification of the gating primitives in `folly/GLog.h`.

The file embeds the two lock-free gating primitives of `GLog.h`:

* `WindowedGate` — the gate underlying `FB_LOG_EVERY_MS`: a persistent
  millisecond timestamp `FB_LEM_hist` (here `last`), an acquire load into
  `FB_LEM_prev`, an elapsed-window test, and a single
  `compare_exchange_strong` attempt; and
* `OnceGate` — the gate underlying `FB_LOG_ONCE`: a persistent boolean
  flag, a relaxed fast-path load, and a single `exchange true`.

Timestamps are `std::chrono::milliseconds::rep`, a signed 64-bit integer;
we model them as `Int` (the scenarios considered stay far from the 64-bit
range, and signed overflow is undefined behaviour in the source anyway).
Single-threaded executions are modelled by explicit state passing; the
multi-thread interleavings of `FB_LOG_EVERY_MS` are modelled by a small
step relation over per-thread program counters, one step per atomic
access of the source.
-/

set_option autoImplicit false

namespace WindowedGate

/-- One `compare_exchange_strong` on the stored timestamp, as in the source:
succeeds (and installs `new`) exactly when the current value `hist` still
equals `expected`; returns the success flag and the resulting value. -/
def casStrong (hist expected new : Int) : Bool × Int :=
  if hist = expected then (true, new) else (false, hist)

/-- Single-threaded `FB_LOG_EVERY_MS` gate decision. The macro's `if`
condition is `interval > 0 && (now - prev < interval || !CAS)`; the `LOG`
(the gate opening) is the `else` branch, so the gate opens iff
`interval <= 0`, or the window has elapsed and the CAS succeeds. When
`interval <= 0` the condition short-circuits: no load and no CAS happen,
and the stored timestamp is untouched. Returns (opened, new stored
timestamp). In a single-threaded execution the value the CAS compares
against is the value just loaded into `FB_LEM_prev`, i.e. `last` itself. -/
def tryAcquire (interval now last : Int) : Bool × Int :=
  if interval ≤ 0 then (true, last)
  else
    let prev := last
    if now - prev < interval then (false, last)
    else casStrong last prev now

/-- Reference function written from the words of the refinement claim:
if `now - last >= interval` then store `now` and return true, else
return false and keep the state. Compared against `tryAcquire`. -/
def tryAcquireRef (interval now last : Int) : Bool × Int :=
  if interval ≤ now - last then (true, now) else (false, last)

/-- Run a single-threaded sequence of calls at the given timestamps,
threading the stored timestamp through; returns the list of decisions. -/
def run (interval last : Int) : List Int → List Bool
  | [] => []
  | t :: ts =>
      (tryAcquire interval t last).1 ::
        run interval (tryAcquire interval t last).2 ts

end WindowedGate

/-- C1: the concrete FB_LOG_EVERY_MS scenario of the claim is false on the
code: with interval 10000 and initial stored timestamp 0, the call at
t = 0 sees `0 - 0 = 0 < 10000` and returns false, so the result sequence
is not `[true, false, true, false, true]`. -/
theorem windowed_scenario_cex :
    WindowedGate.run 10000 0 [0, 5000, 10000, 10001, 20001] ≠
      [true, false, true, false, true] := by
  decide

/-- C1 (amended): with interval 10000 and initial stored timestamp 0,
single-threaded calls at t = 0, 5000, 10000, 10001, 20001 return
false, false, true, false, true in order. -/
theorem windowed_scenario :
    WindowedGate.run 10000 0 [0, 5000, 10000, 10001, 20001] =
      [false, false, true, false, true] := by
  decide

/-- C3: for a positive interval, a call inside the window (i.e. with
`now - last < interval`) returns false and leaves the stored timestamp
unchanged; in particular, after a call at time `t` that returned true
(whose stored timestamp is then `t`), any call at `t' ∈ [t, t + interval)`
returns false and does not modify the stored timestamp. -/
theorem windowed_closed_window (interval now last t t' : Int)
    (hI : 0 < interval) (h : now - last < interval)
    (ht : t ≤ t') (ht' : t' < t + interval) :
    WindowedGate.tryAcquire interval now last = (false, last) ∧
    WindowedGate.tryAcquire interval t' t = (false, t) := by
  constructor
  · simp [WindowedGate.tryAcquire, not_le.mpr hI, h]
  · have h2 : t' - t < interval := by omega
    simp [WindowedGate.tryAcquire, not_le.mpr hI, h2]

/-- C3 witness: the closed-window theorem at interval 10, state 5, a call
at time 9, with earlier true call at time 5 and follow-up at time 14. -/
theorem windowed_closed_window_witness :
    WindowedGate.tryAcquire 10 9 5 = (false, 5) ∧
    WindowedGate.tryAcquire 10 14 5 = (false, 5) :=
  windowed_closed_window 10 9 5 5 14 (by decide) (by decide) (by decide)
    (by decide)

/-- C4: for a positive interval, after a call at time `t` that returned
true, the next call at any time `t' ≥ t + interval` returns true again. -/
theorem windowed_rearm (interval t t' last : Int) (hI : 0 < interval)
    (h1 : (WindowedGate.tryAcquire interval t last).1 = true)
    (h2 : t + interval ≤ t') :
    (WindowedGate.tryAcquire interval t'
      (WindowedGate.tryAcquire interval t last).2).1 = true := by
  unfold WindowedGate.tryAcquire WindowedGate.casStrong at *
  simp only [not_le.mpr hI, if_false] at *
  by_cases hw : t - last < interval
  · simp [hw] at h1
  · have hw' : ¬ t' - t < interval := by omega
    simp [hw, hw']

/-- C4 witness: interval 10, initial stored timestamp 0, first call at
t = 10 (true), second call at t = 25 ≥ 10 + 10 (true again). -/
theorem windowed_rearm_witness :
    (WindowedGate.tryAcquire 10 25
      (WindowedGate.tryAcquire 10 10 0).2).1 = true :=
  windowed_rearm 10 10 25 0 (by decide) (by decide) (by decide)

/-- C5: for a non-positive interval the gate always opens, whatever the
timestamp and stored state; the stored timestamp is also untouched. -/
theorem windowed_disabled (interval now last : Int) (h : interval ≤ 0) :
    WindowedGate.tryAcquire interval now last = (true, last) := by
  simp [WindowedGate.tryAcquire, h]

/-- C5 witness: the disabled-gating theorem at interval -3, time 7,
stored timestamp 100. -/
theorem windowed_disabled_witness :
    WindowedGate.tryAcquire (-3) 7 100 = (true, 100) :=
  windowed_disabled (-3) 7 100 (by decide)

/-- C8: single-threaded with a positive interval, the CAS always succeeds
(the field still holds the value just loaded), so `tryAcquire` coincides
with the naive reference function `tryAcquireRef`. -/
theorem windowed_refines_naive (interval now last : Int)
    (hI : 0 < interval) :
    WindowedGate.tryAcquire interval now last =
      WindowedGate.tryAcquireRef interval now last := by
  unfold WindowedGate.tryAcquire WindowedGate.tryAcquireRef
    WindowedGate.casStrong
  simp only [not_le.mpr hI, if_false]
  by_cases hw : now - last < interval
  · simp [hw, not_le.mpr hw]
  · simp [hw, le_of_not_lt hw]

/-- C8 witness: the refinement theorem at interval 10, time 12, stored
timestamp 5 (the window has elapsed: both sides fire and store 12). -/
theorem windowed_refines_naive_witness :
    WindowedGate.tryAcquire 10 12 5 =
      WindowedGate.tryAcquireRef 10 12 5 :=
  windowed_refines_naive 10 12 5 (by decide)

namespace OnceGate

/-- Single-threaded `FB_LOG_ONCE` gate decision. The macro's `if`
condition is `flag.load(relaxed) || flag.exchange(true, relaxed)`, and the
`LOG` is the `else` branch: if the flag is already set the load
short-circuits and the gate stays closed; otherwise the exchange installs
`true` and returns the previous value `false`, so the gate opens. Returns
(opened, new flag). -/
def tryAcquire (fired : Bool) : Bool × Bool :=
  if fired then (false, fired) else (true, true)

/-- Instrumented variant of `tryAcquire` that also counts the writes
(exchange attempts) performed: (opened, new flag, writes). The fast path
performs none; the slow path performs exactly one exchange. -/
def tryAcquireInstr (fired : Bool) : Bool × Bool × Nat :=
  if fired then (false, fired, 0) else (true, true, 1)

/-- Decisions of a single-threaded sequence of `n` calls on one gate,
threading the flag through. -/
def run (fired : Bool) : Nat → List Bool
  | 0 => []
  | n + 1 => (tryAcquire fired).1 :: run (tryAcquire fired).2 n

/-- Flag value after a single-threaded sequence of `n` calls. -/
def stateAfter (fired : Bool) : Nat → Bool
  | 0 => fired
  | n + 1 => stateAfter (tryAcquire fired).2 n

theorem run_true (n : Nat) : run true n = List.replicate n false := by
  induction n with
  | zero => rfl
  | succ n ih => simp [run, tryAcquire, List.replicate, ih]

end OnceGate

/-- C2: starting from the initial flag `false`, in any nonempty sequence
of calls on the same OnceGate exactly the first call returns true and
every one of the `n` subsequent calls returns false. -/
theorem once_exactly_first (n : Nat) :
    OnceGate.run false (n + 1) = true :: List.replicate n false := by
  simp [OnceGate.run, OnceGate.tryAcquire, OnceGate.run_true]

/-- C6: on a gate whose flag is already true, `tryAcquire` returns false,
leaves the flag untouched, and performs zero writes — the fast-path load
short-circuits so the exchange is never attempted. -/
theorem once_fast_path (fired : Bool) (h : fired = true) :
    OnceGate.tryAcquireInstr fired = (false, fired, 0) := by
  simp [OnceGate.tryAcquireInstr, h]

/-- C6 witness: the fast-path theorem at flag value true. -/
theorem once_fast_path_witness :
    OnceGate.tryAcquireInstr true = (false, true, 0) :=
  once_fast_path true (by decide)

/-- C9: the flag is monotone — no call ever writes false, so once the
flag is true it remains true after any number of further calls. -/
theorem once_monotone (fired : Bool) (n : Nat) (h : fired = true) :
    OnceGate.stateAfter fired n = true := by
  subst h
  induction n with
  | zero => rfl
  | succ n ih => simpa [OnceGate.stateAfter, OnceGate.tryAcquire] using ih

/-- C9 witness: the monotonicity theorem for flag true and 5 further
calls. -/
theorem once_monotone_witness : OnceGate.stateAfter true 5 = true :=
  once_monotone true 5 (by decide)

namespace WindowedGate

/-- Instrumentation record for one full `FB_LOG_EVERY_MS` evaluation:
the decision, the stored timestamp afterwards, the number of atomic loads
and of CAS attempts on `FB_LEM_hist`, whether the clock was sampled, and
the value taken by `FB_LEM_now`. -/
structure Instr where
  opened : Bool
  lastAfter : Int
  loads : Nat
  casAttempts : Nat
  clockSampled : Bool
  nowUsed : Int
  deriving DecidableEq, Repr

/-- One full `FB_LOG_EVERY_MS` evaluation with instrumentation, taking
the clock reading `clockNow` as a parameter. As in the source,
`FB_LEM_now` is `0` without sampling the clock when `interval ≤ 0`, and
in that case the condition short-circuits before touching
`FB_LEM_hist`. -/
def tryAcquireInstr (interval clockNow last : Int) : Instr :=
  if interval ≤ 0 then ⟨true, last, 0, 0, false, 0⟩
  else
    let now := clockNow
    let prev := last
    if now - prev < interval then ⟨false, last, 1, 0, true, now⟩
    else if last = prev then ⟨true, now, 1, 1, true, now⟩
    else ⟨false, last, 1, 1, true, now⟩

/-- Stored timestamp after a sequence of instrumented calls, given as a
list of (interval, clock reading) pairs. -/
def runInstr (last : Int) : List (Int × Int) → Int
  | [] => last
  | p :: ps => runInstr (tryAcquireInstr p.1 p.2 last).lastAfter ps

end WindowedGate

/-- C10: with a non-positive interval a call performs no load and no CAS
on the stored timestamp, does not sample the clock and uses 0 for
`FB_LEM_now`, and returns true leaving the state untouched; hence any
sequence of non-positive-interval calls leaves the stored timestamp
exactly as it was for a later positive-interval call. -/
theorem windowed_disabled_frame (interval clockNow last : Int)
    (l : List (Int × Int)) (h : interval ≤ 0)
    (hl : ∀ p ∈ l, p.1 ≤ (0 : Int)) :
    WindowedGate.tryAcquireInstr interval clockNow last =
      ⟨true, last, 0, 0, false, 0⟩ ∧
    WindowedGate.runInstr last l = last := by
  refine ⟨by simp [WindowedGate.tryAcquireInstr, h], ?_⟩
  induction l generalizing last with
  | nil => rfl
  | cons p ps ih =>
      have hp : p.1 ≤ (0 : Int) := hl p (List.mem_cons_self p ps)
      have hps : ∀ q ∈ ps, q.1 ≤ (0 : Int) := fun q hq =>
        hl q (List.mem_cons_of_mem p hq)
      simp [WindowedGate.runInstr, WindowedGate.tryAcquireInstr, hp,
        ih last hps]

/-- C10 witness: the disabled-frame theorem at interval -1, clock 7,
state 42, with the disabled-call sequence [(-1, 7), (0, 9)]. -/
theorem windowed_disabled_frame_witness :
    WindowedGate.tryAcquireInstr (-1) 7 42 = ⟨true, 42, 0, 0, false, 0⟩ ∧
    WindowedGate.runInstr 42 [(-1, 7), (0, 9)] = 42 :=
  windowed_disabled_frame (-1) 7 42 [(-1, 7), (0, 9)] (by decide)
    (by decide)

namespace WindowedGate

/-- Program counter of one thread racing through the body of
`FB_LOG_EVERY_MS`: before the acquire load of `FB_LEM_hist`; after the
load, holding the loaded value in its local `FB_LEM_prev`; or finished
with its boolean decision. -/
inductive ThreadState where
  | start : ThreadState
  | loaded : Int → ThreadState
  | done : Bool → ThreadState
  deriving DecidableEq, Repr

/-- Whether a thread has finished its call. -/
def ThreadState.isDone : ThreadState → Bool
  | .done _ => true
  | _ => false

/-- Global state of `n` threads racing on one `FB_LOG_EVERY_MS` call
site: the shared atomic `FB_LEM_hist` and each thread's progress. -/
structure Conc (n : Nat) where
  hist : Int
  ths : Fin n → ThreadState

/-- One atomic step of thread `i`, matching the source's accesses to
`FB_LEM_hist`: from `start`, either decide true at once (non-positive
interval, no shared access) or perform the acquire load; from `loaded`,
the thread-local window test followed, when the window has elapsed, by
the single `compare_exchange_strong` (succeeding exactly when the field
still holds the loaded value, and then installing the thread's `now`);
finished threads do nothing. The window test and the CAS touch shared
state only in the CAS, so fusing them into one step loses no
interleavings. -/
def step {n : Nat} (interval : Int) (now : Fin n → Int) (s : Conc n)
    (i : Fin n) : Conc n :=
  match s.ths i with
  | .start =>
      if interval ≤ 0 then
        { s with ths := Function.update s.ths i (.done true) }
      else
        { s with ths := Function.update s.ths i (.loaded s.hist) }
  | .loaded prev =>
      if now i - prev < interval then
        { s with ths := Function.update s.ths i (.done false) }
      else if s.hist = prev then
        { hist := now i, ths := Function.update s.ths i (.done true) }
      else
        { s with ths := Function.update s.ths i (.done false) }
  | .done _ => s

/-- Run a schedule: the listed threads take their atomic steps in
order. -/
def exec {n : Nat} (interval : Int) (now : Fin n → Int) :
    Conc n → List (Fin n) → Conc n
  | s, [] => s
  | s, i :: l => exec interval now (step interval now s i) l

/-- Initial global state: the stored timestamp holds `h` and no thread
has started. -/
def initState (n : Nat) (h : Int) : Conc n :=
  ⟨h, fun _ => .start⟩

/-- Timestamps of the two threads in the counterexample race: thread 0
reads the clock at 3 ms, thread 1 at 5 ms. -/
def cexNow : Fin 2 → Int :=
  fun i => if i.val = 0 then 3 else 5

end WindowedGate

/-- C7: the claim as stated is false on the code: with interval 10 and
the initial stored timestamp 0, two threads whose timestamps 3 and 5 both
lie in the single window [0, 10) of width 10 run to completion (here
under the sequential schedule 0,0,1,1) and both return false, so no call
returns true, not exactly one. -/
theorem windowed_window_race_cex :
    (0 : Int) < 10 ∧
    (∀ i : Fin 2, (0 : Int) ≤ WindowedGate.cexNow i ∧
      WindowedGate.cexNow i < 0 + 10) ∧
    (∀ i : Fin 2,
      ((WindowedGate.exec 10 WindowedGate.cexNow
        (WindowedGate.initState 2 0) [0, 0, 1, 1]).ths i).isDone = true) ∧
    ¬ ∃ w : Fin 2,
      (WindowedGate.exec 10 WindowedGate.cexNow
        (WindowedGate.initState 2 0) [0, 0, 1, 1]).ths w =
          WindowedGate.ThreadState.done true := by
  decide

namespace WindowedGate

/-- Race invariant: either no CAS has succeeded yet — the field still
holds the initial timestamp `h0` and every thread is unstarted or holds
the loaded value `h0` — or some thread `w` has won: it finished true, the
field holds `w`'s timestamp, and no other thread finished true. -/
def Inv {n : Nat} (h0 : Int) (now : Fin n → Int) (s : Conc n) : Prop :=
  (s.hist = h0 ∧ ∀ i, s.ths i = .start ∨ s.ths i = .loaded h0)
  ∨ (∃ w, s.ths w = .done true ∧ s.hist = now w ∧
      ∀ j, s.ths j = .done true → j = w)

theorem step_inv {n : Nat} {interval W h0 : Int} {now : Fin n → Int}
    (hI : 0 < interval) (hlo : ∀ i, W ≤ now i)
    (hhi : ∀ i, now i < W + interval) (harm : h0 + interval ≤ W)
    {s : Conc n} (hs : Inv h0 now s) (i : Fin n) :
    Inv h0 now (step interval now s i) := by
  rcases hs with ⟨hh, hth⟩ | ⟨w, hw, hhist, huniq⟩
  · rcases hth i with hsi | hsi
    · -- thread i is unstarted: it performs the acquire load of h0
      left
      refine ⟨by simp [step, hsi, not_le.mpr hI, hh], fun j => ?_⟩
      by_cases hij : j = i
      · subst hij
        right
        simp [step, hsi, not_le.mpr hI, Function.update_same, hh]
      · rcases hth j with hj | hj <;>
          simp [step, hsi, not_le.mpr hI, Function.update_noteq hij, hj]
    · -- thread i holds the loaded h0: the window has elapsed and the
      -- field still holds h0, so its CAS succeeds and it wins
      right
      have hwin : ¬ now i - h0 < interval := by
        have := hlo i; omega
      refine ⟨i, ?_, ?_, fun j hj => ?_⟩
      · simp [step, hsi, hwin, hh, Function.update_same]
      · simp [step, hsi, hwin, hh]
      · by_cases hij : j = i
        · exact hij
        · exfalso
          rcases hth j with h2 | h2 <;>
            simp [step, hsi, hwin, hh, Function.update_noteq hij, h2]
              at hj
  · -- a winner w already exists; no step can create a second one
    right
    cases hsi : s.ths i with
    | start =>
      have hiw : i ≠ w := fun he => by rw [he, hw] at hsi; cases hsi
      refine ⟨w, ?_, ?_, fun j hj => ?_⟩
      · simp [step, hsi, not_le.mpr hI,
          Function.update_noteq (Ne.symm hiw), hw]
      · simpa [step, hsi, not_le.mpr hI] using hhist
      · by_cases hij : j = i
        · subst hij
          simp [step, hsi, not_le.mpr hI, Function.update_same] at hj
        · exact huniq j
            (by simpa [step, hsi, not_le.mpr hI,
              Function.update_noteq hij] using hj)
    | loaded prev =>
      have hiw : i ≠ w := fun he => by rw [he, hw] at hsi; cases hsi
      by_cases hlt : now i - prev < interval
      · -- window test fails: thread i finishes false
        refine ⟨w, ?_, ?_, fun j hj => ?_⟩
        · simp [step, hsi, hlt, Function.update_noteq (Ne.symm hiw), hw]
        · simpa [step, hsi, hlt] using hhist
        · by_cases hij : j = i
          · subst hij
            simp [step, hsi, hlt, Function.update_same] at hj
          · exact huniq j
              (by simpa [step, hsi, hlt,
                Function.update_noteq hij] using hj)
      · by_cases hcas : s.hist = prev
        · -- impossible: the field holds the winner's timestamp, and two
          -- timestamps of the same window differ by less than interval
          exfalso
          have hp : prev = now w := by rw [← hcas, hhist]
          have h1 := hhi i
          have h2 := hlo w
          omega
        · -- CAS fails: thread i finishes false
          refine ⟨w, ?_, ?_, fun j hj => ?_⟩
          · simp [step, hsi, hlt, hcas,
              Function.update_noteq (Ne.symm hiw), hw]
          · simpa [step, hsi, hlt, hcas] using hhist
          · by_cases hij : j = i
            · subst hij
              simp [step, hsi, hlt, hcas, Function.update_same] at hj
            · exact huniq j
                (by simpa [step, hsi, hlt, hcas,
                  Function.update_noteq hij] using hj)
    | done b =>
      have : step interval now s i = s := by simp [step, hsi]
      rw [this]
      exact ⟨w, hw, hhist, huniq⟩

theorem exec_inv {n : Nat} {interval W h0 : Int} {now : Fin n → Int}
    (hI : 0 < interval) (hlo : ∀ i, W ≤ now i)
    (hhi : ∀ i, now i < W + interval) (harm : h0 + interval ≤ W)
    {s : Conc n} (hs : Inv h0 now s) (l : List (Fin n)) :
    Inv h0 now (exec interval now s l) := by
  induction l generalizing s with
  | nil => exact hs
  | cons i l ih => exact ih (step_inv hI hlo hhi harm hs i)

/-- Timestamps of the two threads in the witness race: thread 0 reads
the clock at 10 ms, thread 1 at 15 ms, both in the window [10, 20). -/
def raceNow : Fin 2 → Int :=
  fun i => if i.val = 0 then 10 else 15

end WindowedGate

/-- C7 (amended): for interval I > 0 and any number of threads racing on
one gate, all observing timestamps inside a single window [W, W + I) of
width I that moreover lies at least one interval past the stored
timestamp (W ≥ stored + I, so the gate is armed for that window), every
complete interleaving ends with exactly one thread returning true and all
the others returning false. -/
theorem windowed_window_race (n : Nat) (interval W h0 : Int)
    (now : Fin (n + 1) → Int) (l : List (Fin (n + 1)))
    (hI : 0 < interval)
    (hlo : ∀ i, W ≤ now i) (hhi : ∀ i, now i < W + interval)
    (harm : h0 + interval ≤ W)
    (hdone : ∀ i,
      ((WindowedGate.exec interval now
        (WindowedGate.initState (n + 1) h0) l).ths i).isDone = true) :
    ∃ w,
      (WindowedGate.exec interval now
        (WindowedGate.initState (n + 1) h0) l).ths w =
          WindowedGate.ThreadState.done true ∧
      ∀ j, j ≠ w →
        (WindowedGate.exec interval now
          (WindowedGate.initState (n + 1) h0) l).ths j =
            WindowedGate.ThreadState.done false := by
  have hinit : WindowedGate.Inv h0 now
      (WindowedGate.initState (n + 1) h0) :=
    Or.inl ⟨rfl, fun _ => Or.inl rfl⟩
  rcases WindowedGate.exec_inv hI hlo hhi harm hinit l with
    ⟨hh, hth⟩ | ⟨w, hw, hhist, huniq⟩
  · exfalso
    have hd := hdone 0
    rcases hth 0 with h1 | h1 <;>
      rw [h1] at hd <;> simp [WindowedGate.ThreadState.isDone] at hd
  · refine ⟨w, hw, fun j hj => ?_⟩
    have hdj := hdone j
    cases hj' : (WindowedGate.exec interval now
        (WindowedGate.initState (n + 1) h0) l).ths j with
    | start => rw [hj'] at hdj; simp [WindowedGate.ThreadState.isDone] at hdj
    | loaded p => rw [hj'] at hdj; simp [WindowedGate.ThreadState.isDone] at hdj
    | done b =>
      cases b
      · rfl
      · exact absurd (huniq j hj') hj

/-- C7 amended witness: two threads, interval 10, initial stored
timestamp 0, timestamps 10 and 15 in the armed window [10, 20), run to
completion under the schedule 0,0,1,1: exactly one wins. -/
theorem windowed_window_race_witness :
    ∃ w,
      (WindowedGate.exec 10 WindowedGate.raceNow
        (WindowedGate.initState 2 0) [0, 0, 1, 1]).ths w =
          WindowedGate.ThreadState.done true ∧
      ∀ j, j ≠ w →
        (WindowedGate.exec 10 WindowedGate.raceNow
          (WindowedGate.initState 2 0) [0, 0, 1, 1]).ths j =
            WindowedGate.ThreadState.done false :=
  windowed_window_race 1 10 10 0 WindowedGate.raceNow [0, 0, 1, 1]
    (by decide) (by decide) (by decide) (by decide) (by decide)
